import Mathlib

/-!
Verification of the QDax example notebooks against their natural-language
specification.

The repository consists of example notebooks (SAC-PBT, TD3-PBT, CMA-ES,
MOME, NSGA2/SPEA2) that configure and drive algorithms of the external
`qdax` library.  This file embeds, as executable Lean definitions,

* the PBT selector configurations constructed by the notebooks
  (`sacPbtArgs`, `td3PbtArgs`),
* the `select_and_replace` PBT selection protocol, modelled from the
  specification since the selector itself lives in the external library,
* the `unshard_fn` tree reshaping, the outer PBT training loop, the
  `jax.lax.scan`-driven fixed-length loops and the CMA-ES loop with its
  stop-condition break,

and proves or refutes the specification's claims about them.
-/

/- ----------------------------------------------------------------- -/
/- Data model: PBT constructor arguments as built by the notebooks.  -/
/- ----------------------------------------------------------------- -/

/-- Arguments passed to the external `PBT` constructor by a notebook. -/
structure PBTArgs where
  population_size : Nat
  num_best_to_replace_from : Nat
  num_worse_to_replace : Nat
deriving DecidableEq

/-- Arguments the SAC-PBT notebook passes to `PBT`, as a function of the
device count: `population_size = population_size_per_device * num_devices`
with `population_size_per_device = 10`, and the global replacement counts
`num_best_to_replace_from = 20` and `num_worse_to_replace = 40` floor-divided
by `num_devices` (Python `//` on naturals). -/
def sacPbtArgs (num_devices : Nat) : PBTArgs :=
  { population_size := 10 * num_devices
    num_best_to_replace_from := 20 / num_devices
    num_worse_to_replace := 40 / num_devices }

/-- Arguments the TD3-PBT notebook passes to `PBT`:
`population_size_per_device = 3`, global counts `1` and `1`,
each floor-divided by `num_devices`. -/
def td3PbtArgs (num_devices : Nat) : PBTArgs :=
  { population_size := 3 * num_devices
    num_best_to_replace_from := 1 / num_devices
    num_worse_to_replace := 1 / num_devices }

/-- The `ReplacementSpec` invariant of the specification:
`0 <= K_best <= population_size`, `0 <= K_worse <= population_size` and
`K_best + K_worse <= population_size` (the lower bounds are automatic
over `Nat`). -/
def replacementInvariant (a : PBTArgs) : Prop :=
  a.num_best_to_replace_from ≤ a.population_size ∧
  a.num_worse_to_replace ≤ a.population_size ∧
  a.num_best_to_replace_from + a.num_worse_to_replace ≤ a.population_size

instance (a : PBTArgs) : Decidable (replacementInvariant a) := by
  unfold replacementInvariant; infer_instance

/- ----------------------------------------------------------------- -/
/- The outer PBT training loop of the PBT notebooks.                 -/
/- ----------------------------------------------------------------- -/

/-- One observable call made by the body of the outer PBT training loop,
tagged with the iteration index: the pmapped gradient-update block
(`train_fn`), the per-member evaluation (`eval_policy`), and the PBT
selection step (`select_fn`). -/
inductive LoopEvent where
  | train : Nat → LoopEvent
  | evalRet : Nat → LoopEvent
  | select : Nat → LoopEvent
deriving DecidableEq

/-- The calls issued by iteration `i` of the outer loop
`for i in range(num_loops)` of the PBT notebooks: first `train_fn`, then
`eval_policy`, then — only when `i < num_loops - 1` — `select_fn`. -/
def iterEvents (numLoops i : Nat) : List LoopEvent :=
  [LoopEvent.train i, LoopEvent.evalRet i] ++
    (if i < numLoops - 1 then [LoopEvent.select i] else [])

/-- The full call trace of the outer PBT training loop. -/
def loopTrace (numLoops : Nat) : List LoopEvent :=
  ((List.range numLoops).map (iterEvents numLoops)).flatten

/-- The mutable bindings of the outer PBT training loop.  The notebook's
loop rebinds `keys`, `training_states`, `env_states` and `replay_buffers`;
`eval_env_first_states` is in scope but is only ever read. -/
structure PBTLoopState (K T E R V : Type) where
  keys : K
  training_states : T
  env_states : E
  replay_buffers : R
  eval_env_first_states : V

/-- The body of the outer PBT training loop, translated from the notebooks:
`train_fn` updates the training states, environment states and replay
buffers; `eval_policy` evaluates the trained states on
`eval_env_first_states`; when `i < num_loops - 1` the selection step
rebinds `keys`, `training_states` and `replay_buffers`. -/
def pbtLoopBody {K T E R V M : Type} (train_fn : T → E → R → T × E × R)
    (eval_policy : T → V → M) (select_fn : K → M → T → R → K × T × R)
    (num_loops i : Nat) (s : PBTLoopState K T E R V) : PBTLoopState K T E R V :=
  let tr := train_fn s.training_states s.env_states s.replay_buffers
  let ret := eval_policy tr.1 s.eval_env_first_states
  if i < num_loops - 1 then
    let sel := select_fn s.keys ret tr.1 tr.2.2
    { keys := sel.1, training_states := sel.2.1, env_states := tr.2.1,
      replay_buffers := sel.2.2, eval_env_first_states := s.eval_env_first_states }
  else
    { keys := s.keys, training_states := tr.1, env_states := tr.2.1,
      replay_buffers := tr.2.2, eval_env_first_states := s.eval_env_first_states }

/-- Run iterations `i, i+1, ..., i+n-1` of an indexed loop body. -/
def runIters {σ : Type} (body : Nat → σ → σ) : Nat → Nat → σ → σ
  | _, 0, s => s
  | i, n + 1, s => runIters body (i + 1) n (body i s)

/- ----------------------------------------------------------------- -/
/- Fixed-length scan loops and the CMA-ES loop.                      -/
/- ----------------------------------------------------------------- -/

/-- `jax.lax.scan body carry () length=n` as used by the MOME and
NSGA2/SPEA2 notebooks: the body is applied `n` times, threading the carry
and collecting one output per application. -/
def scanLoop {σ τ : Type} (f : σ → σ × τ) : σ → Nat → σ × List τ
  | s, 0 => (s, [])
  | s, n + 1 =>
    let step := f s
    let rest := scanLoop f step.1 n
    (rest.1, step.2 :: rest.2)

/-- The CMA-ES optimization loop of the CMA-ES notebook:
`for _ in range(n)` increments `iteration_count`, applies the
sample-and-update step, and breaks as soon as `cmaes.stop_condition`
holds on the updated state.  Returns the final state and the final
`iteration_count`. -/
def cmaesLoop {σ : Type} (stepFn : σ → σ) (stopFn : σ → Bool) :
    Nat → σ → Nat → σ × Nat
  | 0, s, c => (s, c)
  | n + 1, s, c =>
    let s' := stepFn s
    if stopFn s' then (s', c + 1) else cmaesLoop stepFn stopFn n s' (c + 1)

/- ----------------------------------------------------------------- -/
/- Unsharding: reshaping (num_devices, per-device, ...) leaves.      -/
/- ----------------------------------------------------------------- -/

/-- The notebooks' `unshard_fn` on a single leaf whose leading two
dimensions are `(num_devices, population_size_per_device)`: the
`jnp.reshape(x, (population_size,) + x.shape[2:])` of a row-major array
is the device-major concatenation of the per-device rows (the
`jax.device_put` move to the cpu does not change values). -/
def unshard_fn {β : Type} (shardedLeaf : List (List β)) : List β :=
  shardedLeaf.flatten

/-- Index of the maximum of a list of returns, lowest index on ties
(`jnp.argmax` semantics); 0 on the empty list. -/
def argmaxIdx : List Int → Nat
  | [] => 0
  | [_] => 0
  | x :: y :: l =>
    let j := argmaxIdx (y :: l)
    if x < (y :: l).getD j 0 then j + 1 else 0

/- ----------------------------------------------------------------- -/
/- The PBT selection protocol, modelled from the specification.      -/
/- ----------------------------------------------------------------- -/

/-- Modelled from the spec: a scalar return value.  The repository does
not contain the selector implementation (only its call sites), so the
values consumed by `select_and_replace` are modelled as finite reals
(here integers) plus an explicit NaN, which the specification says must
be rejected rather than ranked. -/
inductive RetVal where
  | nan : RetVal
  | val : Int → RetVal
deriving DecidableEq

/-- The finite value of a return; the default 0 for NaN is never used on
validated input. -/
def retValue : RetVal → Int
  | RetVal.nan => 0
  | RetVal.val x => x

/-- Modelled from the spec: the `ReplacementSpec` configuration surface of
the selector (`population_size`, `num_best_to_replace_from`,
`num_worse_to_replace`, `perturb_hyperparameters`).  Counts are integers
because the specification classifies negative counts as `InvalidConfig`. -/
structure ReplacementSpec where
  population_size : Int
  num_best_to_replace_from : Int
  num_worse_to_replace : Int
  perturb_hyperparameters : Bool
deriving DecidableEq

/-- The error taxonomy of the selector. -/
inductive PBTError where
  | invalidInput : PBTError
  | invalidConfig : PBTError
deriving DecidableEq

/-- Result of a selection call: either a fresh RNG state with the new
population, or a rejection with no output at all. -/
inductive SelectResult (α : Type) where
  | ok : Nat → List α → SelectResult α
  | error : PBTError → SelectResult α
deriving DecidableEq

/-- `InvalidInput` check of the specification: `returns` and `population`
must both have length `population_size` and `returns` must contain no
NaN. -/
def validInput (cfg : ReplacementSpec) (returns : List RetVal)
    (popLen : Nat) : Prop :=
  (returns.length : Int) = cfg.population_size ∧
  (popLen : Int) = cfg.population_size ∧
  RetVal.nan ∉ returns

instance (cfg : ReplacementSpec) (returns : List RetVal) (popLen : Nat) :
    Decidable (validInput cfg returns popLen) := by
  unfold validInput; infer_instance

/-- `InvalidConfig` check of the specification: both replacement counts
nonnegative and `K_best + K_worse <= population_size`. -/
def validConfig (cfg : ReplacementSpec) : Prop :=
  0 ≤ cfg.num_best_to_replace_from ∧ 0 ≤ cfg.num_worse_to_replace ∧
  cfg.num_best_to_replace_from + cfg.num_worse_to_replace ≤ cfg.population_size

instance (cfg : ReplacementSpec) : Decidable (validConfig cfg) := by
  unfold validConfig; infer_instance

/-- Modelled from the spec: the opaque splittable RNG state is a natural
number advanced by a fixed mixing function, so that selection is a pure
deterministic function of its arguments. -/
def rngMix (s : Nat) : Nat := (s * 1664525 + 1013904223) % 4294967296

/-- Boolean ranking order used to sort indices: `i` is placed before `j`
when its return is strictly larger, or on equal returns when `i ≤ j`
(stable lower-index-first tie-break). -/
def ranksBefore (r : List Int) (i j : Nat) : Bool :=
  decide (r.getD j 0 < r.getD i 0 ∨ (r.getD i 0 = r.getD j 0 ∧ i ≤ j))

/-- The strict "ranks strictly before" order on distinct indices:
strictly larger return, or equal returns and strictly smaller index. -/
def rankKeyLT (r : List Int) (i j : Nat) : Prop :=
  r.getD j 0 < r.getD i 0 ∨ (r.getD i 0 = r.getD j 0 ∧ i < j)

/-- Insert an index into a ranking list, keeping it sorted for
`ranksBefore`. -/
def rankInsert (r : List Int) (i : Nat) : List Nat → List Nat
  | [] => [i]
  | j :: js => if ranksBefore r i j then i :: j :: js else j :: rankInsert r i js

/-- Step 1 of the specification's algorithm: the member indices ranked by
returns descending, ties broken stably by original index (lower index
first). -/
def rankSort (r : List Int) : List Nat :=
  (List.range r.length).foldr (rankInsert r) []

/-- Step 2: `best_indices`, the top `kbest` indices of the ranking. -/
def bestIndicesOf (returns : List RetVal) (kbest : Nat) : List Nat :=
  (rankSort (returns.map retValue)).take kbest

/-- Step 2: `worse_indices`, the bottom `kworse` indices of the same
ranking. -/
def worseIndicesOf (returns : List RetVal) (kworse : Nat) : List Nat :=
  (rankSort (returns.map retValue)).drop (returns.length - kworse)

/-- Step 3: draw, for each worse index, a source index uniformly from
`best_indices` (with replacement) together with a fresh perturbation key,
threading the RNG state.  Returns the final RNG state and the
`(worse_index, source_index, perturbation_key)` triples. -/
def drawPairs (best : List Nat) : Nat → List Nat → Nat × List (Nat × Nat × Nat)
  | s, [] => (s, [])
  | s, w :: ws =>
    let v := rngMix s % best.length
    let key := rngMix (rngMix s)
    let rest := drawPairs best (rngMix key) ws
    (rest.1, (w, best.getD v 0, key) :: rest.2)

/-- Steps 4-6: the new value of the member at index `i`: a deep copy of
the drawn source member when `i` is a worse index (perturbed by
`perturbFn` when `perturb_hyperparameters` is set), and the original
member unchanged otherwise. -/
def replacedValue {α : Type} (perturbFn : Nat → α → α) (doPerturb : Bool)
    (pop : List α) (pairs : List (Nat × Nat × Nat)) (i : Nat) (m : α) : α :=
  match pairs.find? (fun p => p.1 == i) with
  | some p => if doPerturb then perturbFn p.2.2 (pop.getD p.2.1 m)
              else pop.getD p.2.1 m
  | none => m

/-- Map a function of the index over a list, starting at index `n`. -/
def mapFrom {α : Type} (f : Nat → α → α) : Nat → List α → List α
  | _, [] => []
  | n, a :: l => f n a :: mapFrom f (n + 1) l

/-- The success path of the selector: rank, draw replacement sources,
rebuild the population, and advance the RNG state. -/
def selectOk {α : Type} (perturbFn : Nat → α → α) (cfg : ReplacementSpec)
    (rng : Nat) (returns : List RetVal) (population : List α) :
    SelectResult α :=
  SelectResult.ok
    (rngMix (drawPairs (bestIndicesOf returns cfg.num_best_to_replace_from.toNat)
        rng (worseIndicesOf returns cfg.num_worse_to_replace.toNat)).1)
    (mapFrom
      (replacedValue perturbFn cfg.perturb_hyperparameters population
        (drawPairs (bestIndicesOf returns cfg.num_best_to_replace_from.toNat)
          rng (worseIndicesOf returns cfg.num_worse_to_replace.toNat)).2)
      0 population)

/-- Modelled from the spec: the selector contract
`select_and_replace(rng_state, returns, population, spec)`.
Validation is performed eagerly before anything else; on success the
worst-ranked `K_worse` members are overwritten by deep copies of members
drawn uniformly (with replacement) from the top `K_best`, every other
member is returned unchanged, and a fresh RNG state is produced. -/
def select_and_replace {α : Type} (perturbFn : Nat → α → α)
    (cfg : ReplacementSpec) (rng : Nat) (returns : List RetVal)
    (population : List α) : SelectResult α :=
  if validInput cfg returns population.length then
    if validConfig cfg then selectOk perturbFn cfg rng returns population
    else SelectResult.error PBTError.invalidConfig
  else SelectResult.error PBTError.invalidInput

/-- The population produced by a selection call, when it succeeded. -/
def resultPop {α : Type} : SelectResult α → Option (List α)
  | SelectResult.ok _ p => some p
  | SelectResult.error _ => none

/- ----------------------------------------------------------------- -/
/- Theorems.                                                         -/
/- ----------------------------------------------------------------- -/

/-- Count of an element in a joined list of lists: the sum of the
per-block counts. -/
theorem count_flatten_eq_sum {α : Type} [DecidableEq α] (L : List (List α)) (a : α) :
    L.flatten.count a = (L.map (List.count a)).sum := by
  induction L with
  | nil => rfl
  | cons l ls ih => simp [List.flatten, List.count_append, ih]

/-- Summing an indicator function over `List.range n`. -/
theorem sum_range_indicator (n i c : Nat) :
    ((List.range n).map (fun j => if j = i then c else 0)).sum =
      if i < n then c else 0 := by
  induction n with
  | zero => simp
  | succ n ih =>
    rw [List.range_succ]
    simp only [List.map_append, List.sum_append, ih, List.map_cons, List.map_nil,
      List.sum_cons, List.sum_nil]
    by_cases h : i < n
    · have : n ≠ i := by omega
      simp [this, h, Nat.lt_succ_of_lt h]
    · by_cases h2 : n = i
      · subst h2; simp [h, Nat.lt_succ_self]
      · have : ¬ i < n + 1 := by omega
        simp [h, h2, this]

/-- A member of a list of lists is a sublist of the join. -/
theorem sublist_flatten_of_mem {α : Type} {l : List α} {L : List (List α)}
    (h : l ∈ L) : l.Sublist L.flatten := by
  induction L with
  | nil => cases h
  | cons x xs ih =>
    rw [List.mem_cons] at h
    rcases h with rfl | h
    · exact List.sublist_append_left l xs.flatten
    · exact (ih h).trans (List.sublist_append_right x xs.flatten)

/-- C1 counterexample: with a single device the SAC-PBT notebook passes
`population_size = 10`, `K_best = 20`, `K_worse = 40`, which violates the
`ReplacementSpec` invariant (`20 + 40 > 10`), so the claim that every
notebook configuration satisfies the invariant for every positive device
count is false. -/
theorem c1_counterexample : ¬ replacementInvariant (sacPbtArgs 1) := by
  decide

/-- C1 (amended): the TD3-PBT notebook's configuration satisfies the
`ReplacementSpec` invariant for every positive device count, and the
SAC-PBT notebook's configuration satisfies it exactly when there are at
least three devices; at one or two devices the SAC configuration has
`K_best + K_worse > population_size` and is an `InvalidConfig`. -/
theorem c1_notebook_pbt_invariant :
    (∀ d : Nat, 1 ≤ d → replacementInvariant (td3PbtArgs d)) ∧
    (∀ d : Nat, 3 ≤ d → replacementInvariant (sacPbtArgs d)) ∧
    ¬ replacementInvariant (sacPbtArgs 1) ∧
    ¬ replacementInvariant (sacPbtArgs 2) := by
  refine ⟨?_, ?_, by decide, by decide⟩
  · intro d hd
    match d, hd with
    | 1, _ => decide
    | (n + 2), _ =>
      have h1 : 1 / (n + 2) = 0 := Nat.div_eq_of_lt (by omega)
      refine ⟨?_, ?_, ?_⟩ <;> simp [td3PbtArgs, h1]
  · intro d hd
    have hd0 : 0 < d := by omega
    have h20 : 20 / d ≤ 20 / 3 := Nat.div_le_div_left hd (by omega)
    have h40 : 40 / d ≤ 40 / 3 := Nat.div_le_div_left hd (by omega)
    have h3 : (3 : Nat) ≤ d := hd
    refine ⟨?_, ?_, ?_⟩ <;> simp only [sacPbtArgs] <;> omega

/-- C1 witness: concrete instances of the amended claim, at one device for
TD3 and four devices for SAC. -/
theorem c1_witness :
    replacementInvariant (td3PbtArgs 1) ∧ replacementInvariant (sacPbtArgs 4) :=
  ⟨c1_notebook_pbt_invariant.1 1 (by decide),
   c1_notebook_pbt_invariant.2.1 4 (by decide)⟩

/-- C4: in both PBT notebooks, the replacement counts handed to the `PBT`
constructor are exactly the floor of dividing the global counts by the
device count (characterised by `q * d <= N < (q + 1) * d`), and a
non-divisible device count (for instance 3, which divides neither 20 nor
40) is silently truncated: the construction still produces a configuration
(`sacPbtArgs 3 = ⟨30, 6, 13⟩`) instead of being rejected. -/
theorem c4_floor_division (d : Nat) (hd : 1 ≤ d) :
    ((sacPbtArgs d).num_best_to_replace_from * d ≤ 20 ∧
      20 < ((sacPbtArgs d).num_best_to_replace_from + 1) * d) ∧
    ((sacPbtArgs d).num_worse_to_replace * d ≤ 40 ∧
      40 < ((sacPbtArgs d).num_worse_to_replace + 1) * d) ∧
    ((td3PbtArgs d).num_best_to_replace_from * d ≤ 1 ∧
      1 < ((td3PbtArgs d).num_best_to_replace_from + 1) * d) ∧
    (sacPbtArgs 3 = ⟨30, 6, 13⟩ ∧ ¬ (3 ∣ 20) ∧ ¬ (3 ∣ 40)) := by
  have hd0 : 0 < d := by omega
  have e20 : 20 / d * d + 20 % d = 20 := by
    rw [Nat.mul_comm]; exact Nat.div_add_mod 20 d
  have m20 := Nat.mod_lt 20 hd0
  have e40 : 40 / d * d + 40 % d = 40 := by
    rw [Nat.mul_comm]; exact Nat.div_add_mod 40 d
  have m40 := Nat.mod_lt 40 hd0
  have e1 : 1 / d * d + 1 % d = 1 := by
    rw [Nat.mul_comm]; exact Nat.div_add_mod 1 d
  have m1 := Nat.mod_lt 1 hd0
  refine ⟨⟨?_, ?_⟩, ⟨?_, ?_⟩, ⟨?_, ?_⟩, by decide⟩ <;>
    simp only [sacPbtArgs, td3PbtArgs, Nat.add_mul, Nat.one_mul] <;> omega

/-- C4 witness: the floor-division characterisation at three devices. -/
theorem c4_witness :
    (sacPbtArgs 3).num_best_to_replace_from * 3 ≤ 20 ∧
      20 < ((sacPbtArgs 3).num_best_to_replace_from + 1) * 3 :=
  (c4_floor_division 3 (by decide)).1

/-- Count of a `select` event inside one iteration block of the trace. -/
theorem count_select_iterEvents (n j i : Nat) :
    (iterEvents n j).count (LoopEvent.select i) =
      if j = i then (if i < n - 1 then 1 else 0) else 0 := by
  unfold iterEvents
  by_cases hj : j = i
  · subst hj
    by_cases h : j < n - 1 <;> simp [h, List.count_cons, List.count_append]
  · by_cases h : j < n - 1 <;>
      simp [h, List.count_cons, List.count_append, hj, Ne.symm hj]

/-- Count of a `train` event inside one iteration block of the trace. -/
theorem count_train_iterEvents (n j i : Nat) :
    (iterEvents n j).count (LoopEvent.train i) = if j = i then 1 else 0 := by
  unfold iterEvents
  by_cases hj : j = i
  · subst hj
    by_cases h : j < n - 1 <;> simp [h, List.count_cons, List.count_append]
  · by_cases h : j < n - 1 <;>
      simp [h, List.count_cons, List.count_append, hj, Ne.symm hj]

/-- Count of an `evalRet` event inside one iteration block of the trace. -/
theorem count_evalRet_iterEvents (n j i : Nat) :
    (iterEvents n j).count (LoopEvent.evalRet i) = if j = i then 1 else 0 := by
  unfold iterEvents
  by_cases hj : j = i
  · subst hj
    by_cases h : j < n - 1 <;> simp [h, List.count_cons, List.count_append]
  · by_cases h : j < n - 1 <;>
      simp [h, List.count_cons, List.count_append, hj, Ne.symm hj]

/-- C2 counterexample: in the notebooks' own configuration
(`num_loops = 10`) the final iteration issues no selection call — the
loop guards it with `if i < (num_loops - 1)` — so the claim that the
selection step is invoked exactly once in every loop iteration is false
at iteration 9. -/
theorem c2_counterexample :
    ¬ ((loopTrace 10).count (LoopEvent.select 9) = 1) := by
  decide

/-- C2 (amended): in each iteration of the outer PBT training loop,
`train_fn` and `eval_policy` are invoked exactly once; `select_fn` is
invoked exactly once in every iteration except the final one, where it is
skipped; and whenever it is invoked it runs after that iteration's
`train_fn` and `eval_policy` calls (the three calls occur as an ordered
subsequence of the trace). -/
theorem c2_selection_schedule (n i : Nat) (hi : i < n) :
    (loopTrace n).count (LoopEvent.train i) = 1 ∧
    (loopTrace n).count (LoopEvent.evalRet i) = 1 ∧
    (loopTrace n).count (LoopEvent.select i) =
      (if i < n - 1 then 1 else 0) ∧
    (i < n - 1 →
      [LoopEvent.train i, LoopEvent.evalRet i, LoopEvent.select i].Sublist
        (loopTrace n)) ∧
    [LoopEvent.train i, LoopEvent.evalRet i].Sublist (loopTrace n) := by
  have hmem : iterEvents n i ∈ (List.range n).map (iterEvents n) :=
    List.mem_map_of_mem (iterEvents n) (List.mem_range.mpr hi)
  have hsub : (iterEvents n i).Sublist (loopTrace n) :=
    sublist_flatten_of_mem hmem
  refine ⟨?_, ?_, ?_, ?_, ?_⟩
  · rw [loopTrace, count_flatten_eq_sum, List.map_map]
    have : ((List.range n).map ((List.count (LoopEvent.train i)) ∘ iterEvents n))
        = (List.range n).map (fun j => if j = i then 1 else 0) := by
      apply List.map_congr_left
      intro j _
      exact count_train_iterEvents n j i
    rw [this, sum_range_indicator]
    simp [hi]
  · rw [loopTrace, count_flatten_eq_sum, List.map_map]
    have : ((List.range n).map ((List.count (LoopEvent.evalRet i)) ∘ iterEvents n))
        = (List.range n).map (fun j => if j = i then 1 else 0) := by
      apply List.map_congr_left
      intro j _
      exact count_evalRet_iterEvents n j i
    rw [this, sum_range_indicator]
    simp [hi]
  · rw [loopTrace, count_flatten_eq_sum, List.map_map]
    have : ((List.range n).map ((List.count (LoopEvent.select i)) ∘ iterEvents n))
        = (List.range n).map
            (fun j => if j = i then (if i < n - 1 then 1 else 0) else 0) := by
      apply List.map_congr_left
      intro j _
      exact count_select_iterEvents n j i
    rw [this, sum_range_indicator]
    simp [hi]
  · intro hlast
    have : iterEvents n i =
        [LoopEvent.train i, LoopEvent.evalRet i, LoopEvent.select i] := by
      simp [iterEvents, hlast]
    rw [this] at hsub
    exact hsub
  · refine List.Sublist.trans ?_ hsub
    unfold iterEvents
    exact List.sublist_append_left _ _

/-- C2 witness: the amended schedule at the notebooks' configuration
`num_loops = 10`, iteration 3. -/
theorem c2_witness :
    (loopTrace 10).count (LoopEvent.train 3) = 1 ∧
    (loopTrace 10).count (LoopEvent.select 3) = (if 3 < 10 - 1 then 1 else 0) :=
  ⟨(c2_selection_schedule 10 3 (by decide)).1,
   (c2_selection_schedule 10 3 (by decide)).2.2.1⟩

/-- C3 counterexample: the CMA-ES loop of the CMA-ES notebook is not
fixed-length: with a stop condition that holds immediately, the loop body
runs once and then breaks, not `num_iterations = 1000` times. -/
theorem c3_counterexample :
    (cmaesLoop (fun s : Nat => s) (fun _ => true) 1000 0 0).2 = 1 ∧
    ¬ ((cmaesLoop (fun s : Nat => s) (fun _ => true) 1000 0 0).2 = 1000) := by
  constructor
  · rfl
  · intro h
    simp [cmaesLoop] at h

/-- C3 (amended): the `jax.lax.scan`-driven loops of the MOME and
NSGA2/SPEA2 notebooks execute their body exactly the configured
`num_iterations` times (one collected output per execution), while the
CMA-ES notebook's loop executes its body at most `num_iterations` times,
and exactly `num_iterations` times whenever its stop condition never
holds. -/
theorem c3_loop_lengths :
    (∀ (σ τ : Type) (f : σ → σ × τ) (s : σ) (n : Nat),
      ((scanLoop f s n).2).length = n) ∧
    (∀ (σ : Type) (stepFn : σ → σ) (stopFn : σ → Bool) (n : Nat) (s : σ) (c : Nat),
      (cmaesLoop stepFn stopFn n s c).2 ≤ c + n) ∧
    (∀ (σ : Type) (stepFn : σ → σ) (stopFn : σ → Bool) (n : Nat) (s : σ) (c : Nat),
      (∀ x, stopFn x = false) → (cmaesLoop stepFn stopFn n s c).2 = c + n) := by
  refine ⟨?_, ?_, ?_⟩
  · intro σ τ f s n
    induction n generalizing s with
    | zero => rfl
    | succ n ih => simp [scanLoop, ih]
  · intro σ stepFn stopFn n
    induction n with
    | zero => intro s c; simp [cmaesLoop]
    | succ n ih =>
      intro s c
      simp only [cmaesLoop]
      split
      · show c + 1 ≤ c + (n + 1)
        omega
      · have := ih (stepFn s) (c + 1)
        omega
  · intro σ stepFn stopFn n
    induction n with
    | zero => intro s c _; simp [cmaesLoop]
    | succ n ih =>
      intro s c hstop
      simp only [cmaesLoop]
      split
      · rename_i hcond
        rw [hstop (stepFn s)] at hcond
        cases hcond
      · have := ih (stepFn s) (c + 1) hstop
        omega

/-- C3 witness: a scan loop of length 5 produces exactly 5 outputs, and a
CMA-ES loop whose stop condition never holds runs all 5 iterations. -/
theorem c3_witness :
    ((scanLoop (fun s : Nat => (s + 1, s)) 0 5).2).length = 5 ∧
    (cmaesLoop (fun s : Nat => s + 1) (fun _ => false) 5 0 0).2 = 0 + 5 :=
  ⟨c3_loop_lengths.1 Nat Nat (fun s => (s + 1, s)) 0 5,
   c3_loop_lengths.2.2 Nat (fun s => s + 1) (fun _ => false) 5 0 0 (fun _ => rfl)⟩

/-- C10: `eval_env_first_states` is an invariant of the outer PBT training
loop: it is computed once before the loop (by the pmapped
`init_environments`) and the loop body only reads it, so after any number
of iterations, from any starting iteration index and any loop state, the
binding is unchanged and every generation's evaluation starts from the
identical initial environment states. -/
theorem c10_eval_states_invariant (K T E R V M : Type)
    (train_fn : T → E → R → T × E × R) (eval_policy : T → V → M)
    (select_fn : K → M → T → R → K × T × R) (num_loops : Nat)
    (i n : Nat) (s : PBTLoopState K T E R V) :
    (runIters (pbtLoopBody train_fn eval_policy select_fn num_loops) i n
        s).eval_env_first_states = s.eval_env_first_states := by
  induction n generalizing i s with
  | zero => rfl
  | succ n ih =>
    rw [runIters, ih]
    unfold pbtLoopBody
    by_cases h : i < num_loops - 1 <;> simp [h]

/-- Length of the flattening of a grid whose rows all have length `P`. -/
theorem flatten_length_of_rows {β : Type} (P : Nat) :
    ∀ grid : List (List β), (∀ row ∈ grid, row.length = P) →
      grid.flatten.length = grid.length * P := by
  intro grid
  induction grid with
  | nil => intro _; simp
  | cons row rest ih =>
    intro h
    have hrow : row.length = P := h row (List.mem_cons_self row rest)
    have hrest := ih (fun r hr => h r (List.mem_cons_of_mem row hr))
    simp only [List.flatten_cons, List.length_append, List.length_cons, hrow,
      hrest, Nat.succ_mul]
    omega

/-- Indexing the flattening of a grid whose rows all have length `P`:
flat index `i` reads device row `i / P`, slot `i % P`. -/
theorem flatten_getElem_grid {β : Type} (P : Nat) :
    ∀ grid : List (List β), (∀ row ∈ grid, row.length = P) →
      ∀ i : Nat, grid.flatten[i]? =
        (grid[i / P]?).bind (fun row => row[i % P]?) := by
  intro grid
  induction grid with
  | nil => intro _ i; simp
  | cons row rest ih =>
    intro hrows i
    have hrow : row.length = P := hrows row (List.mem_cons_self row rest)
    have hrest : ∀ r ∈ rest, r.length = P :=
      fun r hr => hrows r (List.mem_cons_of_mem row hr)
    rcases Nat.eq_zero_or_pos P with hP | hP
    · subst hP
      have hflat : ((row :: rest).flatten).length = 0 := by
        rw [flatten_length_of_rows 0 (row :: rest) hrows]
        omega
      have hL : ((row :: rest).flatten)[i]? = none :=
        List.getElem?_eq_none (by omega)
      rw [hL]
      have hdiv : i / 0 = 0 := Nat.div_zero i
      have hmod : i % 0 = i := Nat.mod_zero i
      rw [hdiv, hmod]
      have h0 : (row :: rest)[0]? = some row := List.getElem?_cons_zero
      rw [h0]
      have : row[i]? = none := List.getElem?_eq_none (by omega)
      simp [this]
    · by_cases hi : i < P
      · have hdiv : i / P = 0 := Nat.div_eq_of_lt hi
        have hmod : i % P = i := Nat.mod_eq_of_lt hi
        rw [List.flatten_cons, List.getElem?_append_left (by omega), hdiv, hmod]
        simp [List.getElem?_cons_zero]
      · have hge : P ≤ i := by omega
        have hdiv : i / P = (i - P) / P + 1 := Nat.div_eq_sub_div hP hge
        have hmod : i % P = (i - P) % P := Nat.mod_eq_sub_mod hge
        rw [List.flatten_cons, List.getElem?_append_right (by omega), hrow, hdiv,
          hmod, List.getElem?_cons_succ]
        exact ih hrest (i - P)

/-- The argmax index of a nonempty list is in range. -/
theorem argmaxIdx_lt_length : ∀ l : List Int, l ≠ [] → argmaxIdx l < l.length
  | [], h => absurd rfl h
  | [_], _ => by simp [argmaxIdx]
  | x :: y :: l, _ => by
    have ih := argmaxIdx_lt_length (y :: l) (by simp)
    simp only [argmaxIdx]
    split
    · simpa using Nat.succ_lt_succ ih
    · simp

/-- C9: on a sharded tree leaf with leading dimensions
`(num_devices, population_size_per_device)` (a grid of `D` rows of length
`P`), `unshard_fn` returns a leaf with leading dimension
`population_size = P * D` containing the same elements in device-major
order: flat index `d * P + j` is member `j` of device `d`.  Consequently
the argmax over the flattened returns reads the same member as the
`(device, slot)` pair `(argmax / P, argmax % P)`. -/
theorem c9_unshard (β : Type) (grid : List (List β)) (D P : Nat)
    (hD : grid.length = D) (hrows : ∀ row ∈ grid, row.length = P) :
    (unshard_fn grid).length = P * D ∧
    (∀ d j : Nat, d < D → j < P →
      (unshard_fn grid)[d * P + j]? =
        (grid[d]?).bind (fun row => row[j]?)) ∧
    (∀ gridR : List (List Int), gridR.length = D →
      (∀ row ∈ gridR, row.length = P) → 0 < D * P →
      (unshard_fn gridR)[argmaxIdx (unshard_fn gridR)]? =
        (gridR[argmaxIdx (unshard_fn gridR) / P]?).bind
          (fun row => row[argmaxIdx (unshard_fn gridR) % P]?)) := by
  refine ⟨?_, ?_, ?_⟩
  · rw [unshard_fn, flatten_length_of_rows P grid hrows, hD, Nat.mul_comm]
  · intro d j hd hj
    have hP : 0 < P := by omega
    have hdiv : (d * P + j) / P = d := by
      rw [Nat.mul_comm d P, Nat.mul_add_div hP, Nat.div_eq_of_lt hj]
      omega
    have hmod : (d * P + j) % P = j := by
      rw [Nat.mul_comm d P, Nat.mul_add_mod, Nat.mod_eq_of_lt hj]
    rw [unshard_fn, flatten_getElem_grid P grid hrows, hdiv, hmod]
  · intro gridR hDR hrowsR _
    exact flatten_getElem_grid P gridR hrowsR (argmaxIdx (unshard_fn gridR))

/-- C9 witness: the unsharding properties on the concrete sharded leaf
`[[1, 2], [3, 4]]` (two devices, two members per device). -/
theorem c9_witness :
    (unshard_fn [[(1 : Int), 2], [3, 4]]).length = 2 * 2 ∧
    (unshard_fn [[(1 : Int), 2], [3, 4]])[1 * 2 + 0]? =
      (([[(1 : Int), 2], [3, 4]] : List (List Int))[1]?).bind
        (fun row => row[0]?) :=
  ⟨(c9_unshard Int [[1, 2], [3, 4]] 2 2 rfl (by decide)).1,
   (c9_unshard Int [[1, 2], [3, 4]] 2 2 rfl (by decide)).2.1 1 0 (by decide)
     (by decide)⟩

/-- Inserting an index into a ranking is a permutation of consing it. -/
theorem rankInsert_perm (r : List Int) (i : Nat) :
    ∀ l : List Nat, (rankInsert r i l).Perm (i :: l)
  | [] => List.Perm.refl _
  | j :: js => by
    unfold rankInsert
    by_cases h : ranksBefore r i j = true
    · rw [if_pos h]
    · rw [if_neg h]
      exact ((rankInsert_perm r i js).cons j).trans (List.Perm.swap i j js)

/-- Folding `rankInsert` over a list permutes it. -/
theorem foldr_rankInsert_perm (r : List Int) :
    ∀ l : List Nat, (l.foldr (rankInsert r) []).Perm l
  | [] => List.Perm.refl _
  | x :: xs => (rankInsert_perm r x _).trans ((foldr_rankInsert_perm r xs).cons x)

/-- The ranking is a permutation of the index range. -/
theorem rankSort_perm (r : List Int) :
    (rankSort r).Perm (List.range r.length) :=
  foldr_rankInsert_perm r (List.range r.length)

/-- A failed `ranksBefore` test between distinct indices flips the strict
ranking order. -/
theorem rankKeyLT_of_not_ranksBefore (r : List Int) (i j : Nat) (_hne : i ≠ j)
    (h : ¬ ranksBefore r i j = true) : rankKeyLT r j i := by
  unfold ranksBefore at h
  simp only [decide_eq_true_eq] at h
  unfold rankKeyLT
  omega

/-- A successful `ranksBefore` test between distinct indices gives the
strict ranking order. -/
theorem rankKeyLT_of_ranksBefore (r : List Int) (i j : Nat) (hne : i ≠ j)
    (h : ranksBefore r i j = true) : rankKeyLT r i j := by
  unfold ranksBefore at h
  simp only [decide_eq_true_eq] at h
  unfold rankKeyLT
  omega

/-- The strict ranking order is transitive. -/
theorem rankKeyLT_trans (r : List Int) (i j k : Nat) (h1 : rankKeyLT r i j)
    (h2 : rankKeyLT r j k) : rankKeyLT r i k := by
  unfold rankKeyLT at h1 h2 ⊢
  omega

/-- Inserting a fresh index into a sorted ranking keeps it sorted. -/
theorem rankInsert_pairwise (r : List Int) (i : Nat) :
    ∀ l : List Nat, l.Pairwise (rankKeyLT r) → (∀ x ∈ l, x ≠ i) →
      (rankInsert r i l).Pairwise (rankKeyLT r)
  | [], _, _ => List.pairwise_singleton (rankKeyLT r) i
  | j :: js, hp, hni => by
    unfold rankInsert
    have hji_ne : i ≠ j := fun e => hni j (List.mem_cons_self j js) e.symm
    by_cases h : ranksBefore r i j = true
    · rw [if_pos h]
      have hij : rankKeyLT r i j := rankKeyLT_of_ranksBefore r i j hji_ne h
      refine List.Pairwise.cons ?_ hp
      intro k hk
      rcases List.mem_cons.mp hk with rfl | hk
      · exact hij
      · exact rankKeyLT_trans r i j k hij (List.rel_of_pairwise_cons hp hk)
    · rw [if_neg h]
      have hji : rankKeyLT r j i := rankKeyLT_of_not_ranksBefore r i j hji_ne h
      have hjrest := (List.pairwise_cons.mp hp).1
      have hpj := (List.pairwise_cons.mp hp).2
      refine List.Pairwise.cons ?_
        (rankInsert_pairwise r i js hpj
          (fun x hx => hni x (List.mem_cons_of_mem j hx)))
      intro k hk
      have hk' : k ∈ i :: js := (rankInsert_perm r i js).mem_iff.mp hk
      rcases List.mem_cons.mp hk' with rfl | hk'
      · exact hji
      · exact hjrest k hk'

/-- Folding `rankInsert` over a duplicate-free list yields a sorted
ranking. -/
theorem foldr_rankInsert_pairwise (r : List Int) :
    ∀ l : List Nat, l.Nodup → (l.foldr (rankInsert r) []).Pairwise (rankKeyLT r)
  | [], _ => List.Pairwise.nil
  | x :: xs, hnd => by
    have hx : x ∉ xs := (List.nodup_cons.mp hnd).1
    have hxs := (List.nodup_cons.mp hnd).2
    refine rankInsert_pairwise r x _ (foldr_rankInsert_pairwise r xs hxs) ?_
    intro y hy
    have hyxs : y ∈ xs := (foldr_rankInsert_perm r xs).mem_iff.mp hy
    exact fun e => hx (e ▸ hyxs)

/-- The ranking is sorted for the strict descending-returns,
lower-index-first order. -/
theorem rankSort_pairwise (r : List Int) :
    (rankSort r).Pairwise (rankKeyLT r) :=
  foldr_rankInsert_pairwise r (List.range r.length) (List.nodup_range _)

/-- The bottom slice of the ranking has exactly the requested length when
the requested count is within the population size. -/
theorem worseIndicesOf_length (returns : List RetVal) (kw : Nat)
    (hkw : kw ≤ returns.length) :
    (worseIndicesOf returns kw).length = kw := by
  unfold worseIndicesOf
  rw [List.length_drop]
  have hlen : (rankSort (returns.map retValue)).length = returns.length := by
    have h := (rankSort_perm (returns.map retValue)).length_eq
    simpa using h
  omega

/-- `mapFrom` preserves the length. -/
theorem mapFrom_length {α : Type} (f : Nat → α → α) :
    ∀ (l : List α) (n : Nat), (mapFrom f n l).length = l.length
  | [], _ => rfl
  | _ :: l, n => by simp [mapFrom, mapFrom_length f l (n + 1)]

/-- Indexing a `mapFrom`: element `k` is the original element transformed
at index `n + k`. -/
theorem mapFrom_getElem {α : Type} (f : Nat → α → α) :
    ∀ (l : List α) (n k : Nat),
      (mapFrom f n l)[k]? = Option.map (f (n + k)) l[k]?
  | [], _, _ => by simp [mapFrom]
  | a :: l, n, 0 => by simp [mapFrom]
  | a :: l, n, k + 1 => by
    simp only [mapFrom, List.getElem?_cons_succ]
    rw [mapFrom_getElem f l (n + 1) k]
    have : n + 1 + k = n + (k + 1) := by omega
    rw [this]

/-- The worse indices drawn by `drawPairs` are exactly the given ones, in
order. -/
theorem drawPairs_map_fst (best : List Nat) :
    ∀ (s : Nat) (ws : List Nat),
      ((drawPairs best s ws).2).map (fun p => p.1) = ws
  | _, [] => rfl
  | s, w :: ws => by
    simp only [drawPairs, List.map_cons]
    rw [drawPairs_map_fst best _ ws]

/-- An index that is not a worse index is left unchanged by
`replacedValue`. -/
theorem replacedValue_not_mem {α : Type} (perturbFn : Nat → α → α)
    (doPerturb : Bool) (pop : List α) (pairs : List (Nat × Nat × Nat))
    (i : Nat) (m : α) (h : i ∉ pairs.map (fun p => p.1)) :
    replacedValue perturbFn doPerturb pop pairs i m = m := by
  unfold replacedValue
  have hf : pairs.find? (fun p => p.1 == i) = none := by
    rw [List.find?_eq_none]
    intro p hp
    simp only [beq_iff_eq]
    intro hpi
    exact h (hpi ▸ List.mem_map_of_mem (fun q => q.1) hp)
  rw [hf]

/-- C5: frame property of the selection call.  For every call that
succeeds, every index that is not one of the `worse_indices` is
bit-identical between the input population and the returned population:
the member — an opaque aggregate including its replay buffer contents and
step counters — is carried over unchanged, never reset or discarded. -/
theorem c5_frame {α : Type} (perturbFn : Nat → α → α) (cfg : ReplacementSpec)
    (rng : Nat) (returns : List RetVal) (population : List α)
    (newPop : List α)
    (h : resultPop (select_and_replace perturbFn cfg rng returns population) =
      some newPop)
    (i : Nat)
    (hi : i ∉ worseIndicesOf returns cfg.num_worse_to_replace.toNat) :
    newPop[i]? = population[i]? := by
  unfold select_and_replace at h
  by_cases h1 : validInput cfg returns population.length
  · rw [if_pos h1] at h
    by_cases h2 : validConfig cfg
    · rw [if_pos h2] at h
      unfold selectOk resultPop at h
      injection h with hpop
      subst hpop
      rw [mapFrom_getElem]
      simp only [Nat.zero_add]
      cases hpp : population[i]? with
      | none => simp
      | some m =>
        simp only [Option.map_some']
        rw [replacedValue_not_mem]
        rw [drawPairs_map_fst]
        exact hi
    · rw [if_neg h2] at h
      cases h
  · rw [if_neg h1] at h
    cases h

/-- C5 witness: a concrete successful selection call
(`population_size = 4`, `K_best = K_worse = 1`,
`returns = [10, 30, 5, 20]`, population `[0, 1, 2, 3]`) leaves index 0 —
which is not a worse index — unchanged. -/
theorem c5_witness :
    ([0, 1, 1, 3] : List Int)[0]? = ([0, 1, 2, 3] : List Int)[0]? :=
  c5_frame (fun _ m => m)
    { population_size := 4, num_best_to_replace_from := 1,
      num_worse_to_replace := 1, perturb_hyperparameters := false }
    0 [RetVal.val 10, RetVal.val 30, RetVal.val 5, RetVal.val 20]
    [0, 1, 2, 3] [0, 1, 1, 3] (by decide) 0 (by decide)

/-- C6: the selection operation is a pure deterministic function of its
arguments: two calls with identical configuration, RNG state, returns and
population produce identical results — there is no dependence on
wall-clock time or external mutable state in the model. -/
theorem c6_deterministic {α : Type} (perturbFn : Nat → α → α)
    (cfg1 cfg2 : ReplacementSpec) (rng1 rng2 : Nat)
    (returns1 returns2 : List RetVal) (pop1 pop2 : List α)
    (hcfg : cfg1 = cfg2) (hrng : rng1 = rng2) (hret : returns1 = returns2)
    (hpop : pop1 = pop2) :
    select_and_replace perturbFn cfg1 rng1 returns1 pop1 =
      select_and_replace perturbFn cfg2 rng2 returns2 pop2 := by
  subst hcfg
  subst hrng
  subst hret
  subst hpop
  rfl

/-- C6 witness: two textually separate calls with identical concrete
arguments produce the same result. -/
theorem c6_witness :
    select_and_replace (fun _ m => m)
      { population_size := 4, num_best_to_replace_from := 1,
        num_worse_to_replace := 1, perturb_hyperparameters := false }
      7 [RetVal.val 10, RetVal.val 30, RetVal.val 5, RetVal.val 20]
      ([0, 1, 2, 3] : List Int) =
    select_and_replace (fun _ m => m)
      { population_size := 4, num_best_to_replace_from := 1,
        num_worse_to_replace := 1, perturb_hyperparameters := false }
      7 [RetVal.val 10, RetVal.val 30, RetVal.val 5, RetVal.val 20]
      ([0, 1, 2, 3] : List Int) :=
  c6_deterministic (fun _ m => m) _ _ 7 7 _ _ _ _ rfl rfl rfl rfl

/-- C8: the selection operation fails atomically.  It returns
`InvalidInput` exactly when the shapes mismatch or a NaN is present,
`InvalidConfig` exactly when the input is well-formed but the counts are
negative or `K_best + K_worse > population_size`; in both cases the
validation happens before any mutation and no population is produced.
On valid input and config the call fully succeeds, the result has exactly
`population_size` members, and exactly `K_worse` members are designated
for replacement — no silent clamping. -/
theorem c8_atomic_errors {α : Type} (perturbFn : Nat → α → α)
    (cfg : ReplacementSpec) (rng : Nat) (returns : List RetVal)
    (population : List α) :
    (select_and_replace perturbFn cfg rng returns population =
        SelectResult.error PBTError.invalidInput ↔
      ¬ validInput cfg returns population.length) ∧
    (select_and_replace perturbFn cfg rng returns population =
        SelectResult.error PBTError.invalidConfig ↔
      (validInput cfg returns population.length ∧ ¬ validConfig cfg)) ∧
    (validInput cfg returns population.length → validConfig cfg →
      ∃ (rng' : Nat) (newPop : List α),
        select_and_replace perturbFn cfg rng returns population =
          SelectResult.ok rng' newPop ∧
        newPop.length = population.length ∧
        (worseIndicesOf returns cfg.num_worse_to_replace.toNat).length =
          cfg.num_worse_to_replace.toNat) := by
  refine ⟨?_, ?_, ?_⟩
  · unfold select_and_replace
    by_cases h1 : validInput cfg returns population.length
    · rw [if_pos h1]
      by_cases h2 : validConfig cfg
      · rw [if_pos h2]
        simp [selectOk, h1]
      · rw [if_neg h2]
        simp [h1]
    · rw [if_neg h1]
      simp [h1]
  · unfold select_and_replace
    by_cases h1 : validInput cfg returns population.length
    · rw [if_pos h1]
      by_cases h2 : validConfig cfg
      · rw [if_pos h2]
        simp [selectOk, h1, h2]
      · rw [if_neg h2]
        simp [h1, h2]
    · rw [if_neg h1]
      simp [h1]
  · intro h1 h2
    have hkw : cfg.num_worse_to_replace.toNat ≤ returns.length := by
      obtain ⟨ha, -, -⟩ := h1
      obtain ⟨hb, hc, hd⟩ := h2
      omega
    have heq : select_and_replace perturbFn cfg rng returns population =
        selectOk perturbFn cfg rng returns population := by
      unfold select_and_replace
      rw [if_pos h1, if_pos h2]
    exact ⟨_, _, heq, mapFrom_length _ population 0,
      worseIndicesOf_length returns _ hkw⟩

/-- C8 witness: a concrete valid call succeeds with a population of the
input length and exactly one worse index. -/
theorem c8_witness :
    ∃ (rng' : Nat) (newPop : List Int),
      select_and_replace (fun _ m => m)
        { population_size := 4, num_best_to_replace_from := 1,
          num_worse_to_replace := 1, perturb_hyperparameters := false }
        0 [RetVal.val 10, RetVal.val 30, RetVal.val 5, RetVal.val 20]
        [0, 1, 2, 3] = SelectResult.ok rng' newPop ∧
      newPop.length = ([0, 1, 2, 3] : List Int).length ∧
      (worseIndicesOf [RetVal.val 10, RetVal.val 30, RetVal.val 5, RetVal.val 20]
          ((1 : Int)).toNat).length = ((1 : Int)).toNat :=
  (c8_atomic_errors (fun _ m => m)
    { population_size := 4, num_best_to_replace_from := 1,
      num_worse_to_replace := 1, perturb_hyperparameters := false }
    0 [RetVal.val 10, RetVal.val 30, RetVal.val 5, RetVal.val 20]
    [0, 1, 2, 3]).2.2 (by decide) (by decide)

/-- C7 counterexample: for `returns = [10, 10, 5, 5]` with `K_worse = 1`,
the specification's own algorithm — one stable descending ranking with
lower indices first among ties, whose bottom `K_worse` slice is the worse
set — selects index 3, not index 2: among the two tied worst values the
lower index ranks higher and therefore survives. -/
theorem c7_counterexample :
    worseIndicesOf
        [RetVal.val 10, RetVal.val 10, RetVal.val 5, RetVal.val 5] 1 = [3] ∧
      ¬ (worseIndicesOf
        [RetVal.val 10, RetVal.val 10, RetVal.val 5, RetVal.val 5] 1 = [2]) := by
  decide

/-- C7 (amended): selection ranks members by returns descending with a
stable tie-break by original index (lower index wins ties, i.e. ranks
first).  For `returns = [10, 10, 5, 5]` with `K_best = K_worse = 1` the
best index is 0 and the worst index is 3 (the bottom of the stable
descending ranking).  For `returns = [10, 30, 5, 20]` with
`K_best = K_worse = 1`, `new_population[2]` becomes a copy of
`population[1]`'s full state while indices 0, 1, 3 are unchanged, for
every population and every RNG state. -/
theorem c7_ranking :
    (∀ r : List Int,
      (rankSort r).Pairwise (rankKeyLT r) ∧
      (rankSort r).Perm (List.range r.length)) ∧
    (bestIndicesOf
        [RetVal.val 10, RetVal.val 10, RetVal.val 5, RetVal.val 5] 1 = [0] ∧
      worseIndicesOf
        [RetVal.val 10, RetVal.val 10, RetVal.val 5, RetVal.val 5] 1 = [3]) ∧
    (∀ (rng : Nat) (a b c d : Int),
      resultPop (select_and_replace (fun _ m => m)
        { population_size := 4, num_best_to_replace_from := 1,
          num_worse_to_replace := 1, perturb_hyperparameters := false }
        rng [RetVal.val 10, RetVal.val 30, RetVal.val 5, RetVal.val 20]
        [a, b, c, d]) = some [a, b, b, d]) := by
  refine ⟨fun r => ⟨rankSort_pairwise r, rankSort_perm r⟩, by decide, ?_⟩
  intro rng a b c d
  have hvi : validInput
      { population_size := 4, num_best_to_replace_from := 1,
        num_worse_to_replace := 1, perturb_hyperparameters := false }
      [RetVal.val 10, RetVal.val 30, RetVal.val 5, RetVal.val 20]
      ([a, b, c, d] : List Int).length := by
    show validInput _ _ (4 : Nat)
    decide
  unfold select_and_replace
  rw [if_pos hvi, if_pos (by decide)]
  unfold selectOk resultPop
  have hbest : bestIndicesOf
      [RetVal.val 10, RetVal.val 30, RetVal.val 5, RetVal.val 20]
      ((1 : Int)).toNat = [1] := by decide
  have hworse : worseIndicesOf
      [RetVal.val 10, RetVal.val 30, RetVal.val 5, RetVal.val 20]
      ((1 : Int)).toNat = [2] := by decide
  simp only [hbest, hworse]
  have hpairs : (drawPairs [1] rng [2]).2 =
      [(2, 1, rngMix (rngMix rng))] := by
    simp [drawPairs, Nat.mod_one]
  rw [hpairs]
  rfl
